import Mathlib

/-!
Shallow embedding of the NGO attendance manager (single-page client-side
store).  The data model and every mutation operation are translated from
the source file (`part_000`): the React state container `DataProvider`
exposes `addMember`, `updateMember`, `removeMember`, `addSession`,
`updateSession`, `removeSession`, `setAttendance`, `clearAll` and
`importJson` over a snapshot of type `StoreShape`; serialization lives in
`exportCsvForSession` and the JSON import handler `onImport`.
-/

/-- `Member = {id, name, email?, phone?}` (optional fields as `Option`). -/
structure Member where
  id : String
  name : String
  email : Option String
  phone : Option String
deriving DecidableEq, Repr

/-- `Session = {id, title, dateISO, notes?}`. -/
structure Session where
  id : String
  title : String
  dateISO : String
  notes : Option String
deriving DecidableEq, Repr

/-- `AttendanceRecord = {sessionId, memberId, present}`. -/
structure AttendanceRecord where
  sessionId : String
  memberId : String
  present : Bool
deriving DecidableEq, Repr

/-- `StoreShape = {members, sessions, attendance}` — the whole snapshot. -/
structure StoreShape where
  members : List Member
  sessions : List Session
  attendance : List AttendanceRecord
deriving DecidableEq, Repr

/-- `DEFAULT_STORE = { members: [], sessions: [], attendance: [] }`. -/
def DEFAULT_STORE : StoreShape := { members := [], sessions := [], attendance := [] }

/-- A `Partial<Member>` patch: each field either absent (`none`, spread keeps
the old value) or present (overwrites).  The optional source fields `email`
and `phone` can also be patched to `undefined`, hence `Option (Option _)`. -/
structure MemberPatch where
  id : Option String
  name : Option String
  email : Option (Option String)
  phone : Option (Option String)
deriving DecidableEq, Repr

/-- A `Partial<Session>` patch. -/
structure SessionPatch where
  id : Option String
  title : Option String
  dateISO : Option String
  notes : Option (Option String)
deriving DecidableEq, Repr

/-- JS object spread `{ ...m, ...patch }` for a member: a field present in
the patch wins, an absent one keeps the old value. -/
def applyMemberPatch (m : Member) (p : MemberPatch) : Member :=
  { id := p.id.getD m.id
    name := p.name.getD m.name
    email := p.email.getD m.email
    phone := p.phone.getD m.phone }

/-- JS object spread `{ ...sess, ...patch }` for a session. -/
def applySessionPatch (sess : Session) (p : SessionPatch) : Session :=
  { id := p.id.getD sess.id
    title := p.title.getD sess.title
    dateISO := p.dateISO.getD sess.dateISO
    notes := p.notes.getD sess.notes }

/-- `updateMember(id, patch)`:
`{ ...s, members: s.members.map(m => (m.id === id ? { ...m, ...patch } : m)) }`. -/
def updateMember (s : StoreShape) (id : String) (p : MemberPatch) : StoreShape :=
  { s with members := s.members.map (fun m => if m.id == id then applyMemberPatch m p else m) }

/-- `updateSession(id, patch)`:
`{ ...s, sessions: s.sessions.map(sess => (sess.id === id ? { ...sess, ...patch } : sess)) }`. -/
def updateSession (s : StoreShape) (id : String) (p : SessionPatch) : StoreShape :=
  { s with sessions := s.sessions.map (fun sess => if sess.id == id then applySessionPatch sess p else sess) }

/-- `removeMember(id)`: filter the member out and cascade on
`attendance.filter(a => a.memberId !== id)`; `sessions` is spread through. -/
def removeMember (s : StoreShape) (id : String) : StoreShape :=
  { s with
    members := s.members.filter (fun m => m.id != id)
    attendance := s.attendance.filter (fun a => a.memberId != id) }

/-- `removeSession(id)`: filter the session out and cascade on
`attendance.filter(a => a.sessionId !== id)`; `members` is spread through. -/
def removeSession (s : StoreShape) (id : String) : StoreShape :=
  { s with
    sessions := s.sessions.filter (fun sess => sess.id != id)
    attendance := s.attendance.filter (fun a => a.sessionId != id) }

/-- The key predicate of `setAttendance`'s linear scan:
`a.sessionId === sessionId && a.memberId === memberId`. -/
def matchKey (sid mid : String) (a : AttendanceRecord) : Bool :=
  a.sessionId == sid && a.memberId == mid

/-- The list transformation of `setAttendance`: `findIndex` the first record
matching the key; on a hit `next[idx] = { ...next[idx], present }` (overwrite
the `present` flag in place); on a miss `next.push({sessionId, memberId,
present})`.  Rendered as the equivalent first-match recursion over the list:
records before the first hit are copied, the first hit gets `present`
overwritten and the tail is kept, and with no hit the new record goes at the
end. -/
def upsertAttendance (sid mid : String) (present : Bool) :
    List AttendanceRecord → List AttendanceRecord
  | [] => [{ sessionId := sid, memberId := mid, present := present }]
  | a :: rest =>
      if matchKey sid mid a then { a with present := present } :: rest
      else a :: upsertAttendance sid mid present rest

/-- `setAttendance(sessionId, memberId, present)`: upsert on the attendance
list, members and sessions spread through unchanged. -/
def setAttendance (s : StoreShape) (sid mid : String) (present : Bool) : StoreShape :=
  { s with attendance := upsertAttendance sid mid present s.attendance }

/-- `clearAll()`: replace the snapshot with `DEFAULT_STORE`. -/
def clearAll (_s : StoreShape) : StoreShape := DEFAULT_STORE

/-- Number of attendance records carrying the composite key
`(sessionId, memberId)`. -/
def countKey (att : List AttendanceRecord) (sid mid : String) : Nat :=
  att.countP (matchKey sid mid)

/-! ## JSON values, import validation, and load

The import path handles untyped data: `JSON.parse` gives an arbitrary JS
value, checked only by the shallow `isStoreShape` before replacing the
snapshot.  We model such values with a small JSON datatype. -/

/-- An untyped JSON value, as produced by `JSON.parse`. -/
inductive Json where
  | null
  | bool (b : Bool)
  | num (n : Int)
  | str (s : String)
  | arr (elems : List Json)
  | obj (fields : List (String × Json))

/-- JS truthiness of a parsed JSON value (`x &&` in `isStoreShape`):
`null`, `false`, `0` and `""` are falsy; arrays and objects are truthy. -/
def Json.truthy : Json → Bool
  | .null => false
  | .bool b => b
  | .num n => n != 0
  | .str s => s != ""
  | .arr _ => true
  | .obj _ => true

/-- Property access `x.k`: defined only on objects, `undefined` (`none`)
otherwise and for a missing key. -/
def Json.getField : Json → String → Option Json
  | .obj fields, k => fields.lookup k
  | _, _ => none

/-- `Array.isArray(v)` where `v` may be `undefined`. -/
def isArrayOpt : Option Json → Bool
  | some (.arr _) => true
  | _ => false

/-- `isStoreShape(x)`:
`x && Array.isArray(x.members) && Array.isArray(x.sessions) && Array.isArray(x.attendance)`. -/
def isStoreShape (x : Json) : Bool :=
  x.truthy && isArrayOpt (x.getField "members") && isArrayOpt (x.getField "sessions")
    && isArrayOpt (x.getField "attendance")

/-- The import handler `onImport` after a successful `JSON.parse`: the parsed
`data` replaces the snapshot when `isStoreShape(data)` holds
(`importJson(data)`, which is `setStore(json)`), otherwise the snapshot is
untouched and the `"Invalid backup format"` alert fires.  Result: the new
snapshot (as the untyped value the store would hold) and whether the
invalid-format condition was signalled. -/
def onImportParsed (current : Json) (data : Json) : Json × Bool :=
  if isStoreShape data then (data, false) else (current, true)

/-- The load path of `useLocalStore`: the state starts as the `initial`
argument (`DEFAULT_STORE`); the mount effect reads the slot, and only a
truthy `raw` is parsed and installed — a missing slot, the falsy `""`, or a
`JSON.parse` throw (modelled as the abstract `parse` returning `none`,
swallowed by the `catch`) leaves the initial state.  Total: no exception
escapes to the caller. -/
def loadStoredState (raw : Option String) (parse : String → Option StoreShape) : StoreShape :=
  match raw with
  | none => DEFAULT_STORE
  | some t => if t == "" then DEFAULT_STORE else
      match parse t with
      | none => DEFAULT_STORE
      | some st => st

/-! ## CSV export -/

/-- The quoting test `/[",\n]/.test(field)` on the field's characters. -/
def fieldNeedsQuoting (f : List Char) : Bool :=
  f.any (fun c => c == '"' || c == ',' || c == '\n')

/-- `field.replaceAll('"', '""')`: each double-quote becomes two. -/
def escapeQuotes : List Char → List Char
  | [] => []
  | c :: cs => if c == '"' then '"' :: '"' :: escapeQuotes cs else c :: escapeQuotes cs

/-- The CSV field encoder of `exportCsvForSession`:
`/[",\n]/.test(field) ? '"' + field.replaceAll('"', '""') + '"' : field`. -/
def encodeCsvField (f : List Char) : List Char :=
  if fieldNeedsQuoting f then '"' :: (escapeQuotes f ++ ['"']) else f

/-- String-level wrapper of the field encoder. -/
def encodeCsvFieldStr (f : String) : String :=
  String.mk (encodeCsvField f.data)

/-- The `attendanceMap` lookup for one member: building the `Map` walks
`store.attendance` in order and `map.set`s every record of the selected
session, so a later record for the same member overwrites an earlier one;
`get` returns the last value set, or `undefined` (`none`) when the member
was never set. -/
def attendanceMapGet (att : List AttendanceRecord) (sid mid : String) : Option Bool :=
  att.foldl (fun acc a => if matchKey sid mid a then some a.present else acc) none

/-- `attendanceMap.get(m.id) ? "Yes" : "No"`: only the truthy `true` gives
`"Yes"`; `false` and `undefined` give `"No"`. -/
def presentCell (o : Option Bool) : String :=
  if o = some true then "Yes" else "No"

/-- The header row pushed first by `exportCsvForSession`. -/
def headerRow : List String :=
  ["Member Name", "Email", "Phone", "Present", "Session Title", "Date"]

/-- The row pushed for one member:
`[m.name, m.email || "", m.phone || "", present, selected.title, selected.dateISO]`. -/
def csvRow (att : List AttendanceRecord) (sel : Session) (m : Member) : List String :=
  [m.name, m.email.getD "", m.phone.getD "", presentCell (attendanceMapGet att sel.id m.id),
    sel.title, sel.dateISO]

/-- The `rows` array of `exportCsvForSession`: starts as `[[header]]` and the
loop pushes one row per member of `store.members`, in list order. -/
def csvRowsForSession (s : StoreShape) (sel : Session) : List (List String) :=
  s.members.foldl (fun rows m => rows ++ [csvRow s.attendance sel m]) [headerRow]

/-- The final CSV text:
`rows.map(r => r.map(encode).join(",")).join("\n")`. -/
def exportCsvForSession (s : StoreShape) (sel : Session) : String :=
  String.intercalate "\n"
    ((csvRowsForSession s sel).map (fun r => String.intercalate "," (r.map encodeCsvFieldStr)))

/-- `Modelled from the spec:` the claim's reading of the Present column —
`"Yes"` exactly when some attendance record for the pair (selected session,
this member) exists with `present` true.  Used only to compare the spec's
description of a row with the code's `csvRow`. -/
def specPresentCell (att : List AttendanceRecord) (sid mid : String) : String :=
  if att.any (fun a => matchKey sid mid a && a.present) then "Yes" else "No"

/-- `Modelled from the spec:` the per-member row as the claim describes it:
name, email (empty when absent), phone (empty when absent), the
exists-a-true-record Present column, session title, session date. -/
def specCsvRow (att : List AttendanceRecord) (sel : Session) (m : Member) : List String :=
  [m.name, m.email.getD "", m.phone.getD "", specPresentCell att sel.id m.id,
    sel.title, sel.dateISO]

/-! ## Concrete data for witnesses and counterexamples -/

/-- A concrete member. -/
def annMember : Member := { id := "m1", name := "Ann", email := none, phone := none }

/-- A second concrete member. -/
def bobMember : Member := { id := "m2", name := "Bob", email := none, phone := none }

/-- A concrete session. -/
def week1Session : Session :=
  { id := "s1", title := "Week 1", dateISO := "2025-01-01", notes := none }

/-- A small concrete store: two members, one session, one attendance record. -/
def demoStore : StoreShape :=
  { members := [annMember, bobMember]
    sessions := [week1Session]
    attendance := [{ sessionId := "s1", memberId := "m1", present := true }] }

/-- A store violating key uniqueness: two attendance records with the same
`(sessionId, memberId)` key, the first `present`, the second not. -/
def dupStore : StoreShape :=
  { members := [annMember]
    sessions := [week1Session]
    attendance :=
      [{ sessionId := "s1", memberId := "m1", present := true },
       { sessionId := "s1", memberId := "m1", present := false }] }

/-- A member patch that rewrites the `id` field. -/
def idOverwritePatch : MemberPatch :=
  { id := some "m9", name := none, email := none, phone := none }

/-- A member patch leaving `id` alone. -/
def renameMemberPatch : MemberPatch :=
  { id := none, name := some "Ann B.", email := none, phone := none }

/-- A session patch leaving `id` alone. -/
def retitleSessionPatch : SessionPatch :=
  { id := none, title := some "Week One", dateISO := none, notes := none }

/-- A parsed backup with the three required array fields. -/
def goodBackup : Json :=
  Json.obj [("members", Json.arr []), ("sessions", Json.arr []), ("attendance", Json.arr [])]

/-! ## Helper lemmas -/

theorem matchKey_eq_true {sid mid : String} {a : AttendanceRecord} :
    matchKey sid mid a = true ↔ a.sessionId = sid ∧ a.memberId = mid := by
  simp [matchKey]

theorem upsert_of_forall_not {sid mid : String} {p : Bool} {l : List AttendanceRecord}
    (h : ∀ a ∈ l, matchKey sid mid a = false) :
    upsertAttendance sid mid p l = l ++ [⟨sid, mid, p⟩] := by
  induction l with
  | nil => rfl
  | cons a rest ih =>
      have ha := h a (List.mem_cons_self a rest)
      simp only [upsertAttendance, ha, Bool.false_eq_true, if_false, List.cons_append]
      exact congrArg (a :: ·) (ih fun b hb => h b (List.mem_cons_of_mem a hb))

theorem upsert_decomp {sid mid : String} {p : Bool} {l1 l2 : List AttendanceRecord}
    {a : AttendanceRecord}
    (h1 : ∀ b ∈ l1, matchKey sid mid b = false) (ha : matchKey sid mid a = true) :
    upsertAttendance sid mid p (l1 ++ a :: l2) = l1 ++ { a with present := p } :: l2 := by
  induction l1 with
  | nil => simp [upsertAttendance, ha]
  | cons b rest ih =>
      have hb := h1 b (List.mem_cons_self b rest)
      simp only [List.cons_append, upsertAttendance, hb, Bool.false_eq_true, if_false]
      exact congrArg (b :: ·) (ih fun c hc => h1 c (List.mem_cons_of_mem b hc))

theorem exists_first_match {α : Type} {q : α → Bool} {l : List α}
    (h : ∃ a ∈ l, q a = true) :
    ∃ l1 a l2, l = l1 ++ a :: l2 ∧ (∀ b ∈ l1, q b = false) ∧ q a = true := by
  induction l with
  | nil => simp at h
  | cons x rest ih =>
      by_cases hx : q x = true
      · exact ⟨[], x, rest, rfl, by simp, hx⟩
      · obtain ⟨a, ha, hqa⟩ := h
        rcases List.mem_cons.mp ha with rfl | ha'
        · exact absurd hqa hx
        · obtain ⟨l1, a', l2, heq, hnot, hq⟩ := ih ⟨a, ha', hqa⟩
          exact ⟨x :: l1, a', l2, by rw [heq, List.cons_append], by
            intro b hb
            rcases List.mem_cons.mp hb with rfl | hb'
            · exact Bool.eq_false_iff.mpr (fun hc => hx hc)
            · exact hnot b hb', hq⟩

theorem upsert_idem (sid mid : String) (p : Bool) (l : List AttendanceRecord) :
    upsertAttendance sid mid p (upsertAttendance sid mid p l) =
      upsertAttendance sid mid p l := by
  induction l with
  | nil => simp [upsertAttendance, matchKey]
  | cons a rest ih =>
      by_cases ha : matchKey sid mid a = true
      · have ha' : matchKey sid mid { a with present := p } = true := by
          simpa [matchKey] using ha
        simp [upsertAttendance, ha, ha']
      · have ha0 : matchKey sid mid a = false := Bool.eq_false_iff.mpr ha
        simp [upsertAttendance, ha0, ih]

theorem countKey_upsert_of_not {sid mid : String} {p : Bool} {l : List AttendanceRecord}
    (h : ∀ a ∈ l, matchKey sid mid a = false) :
    countKey (upsertAttendance sid mid p l) sid mid = 1 := by
  rw [upsert_of_forall_not h]
  simp only [countKey, List.countP_append]
  have h0 : List.countP (matchKey sid mid) l = 0 := List.countP_eq_zero.mpr (by
    intro a ha
    simp [h a ha])
  simp [h0, List.countP_cons, matchKey]

theorem countKey_upsert_of_match {sid mid : String} {p : Bool} {l : List AttendanceRecord}
    (h : ∃ a ∈ l, matchKey sid mid a = true) :
    countKey (upsertAttendance sid mid p l) sid mid = countKey l sid mid := by
  obtain ⟨l1, a, l2, rfl, hnot, ha⟩ := exists_first_match h
  rw [upsert_decomp hnot ha]
  have ha' : matchKey sid mid { a with present := p } = true := by
    simpa [matchKey] using ha
  simp [countKey, List.countP_append, List.countP_cons, ha, ha']

theorem escapeQuotes_length (f : List Char) : f.length ≤ (escapeQuotes f).length := by
  induction f with
  | nil => simp [escapeQuotes]
  | cons c cs ih =>
      by_cases hc : c = '"'
      · simp only [escapeQuotes, hc, beq_self_eq_true, if_true, List.length_cons]
        omega
      · have : (c == '"') = false := by simp [hc]
        simp only [escapeQuotes, this, Bool.false_eq_true, if_false, List.length_cons]
        omega

theorem foldl_push {α β : Type} (f : α → β) (l : List α) (init : List β) :
    l.foldl (fun rows x => rows ++ [f x]) init = init ++ l.map f := by
  induction l generalizing init with
  | nil => simp
  | cons x rest ih => simp [List.foldl_cons, ih]

theorem amg_fold_of_forall_not {sid mid : String} {l : List AttendanceRecord}
    (acc : Option Bool) (h : ∀ a ∈ l, matchKey sid mid a = false) :
    l.foldl (fun acc a => if matchKey sid mid a then some a.present else acc) acc = acc := by
  induction l generalizing acc with
  | nil => rfl
  | cons a rest ih =>
      have ha := h a (List.mem_cons_self a rest)
      simp only [List.foldl_cons, ha, Bool.false_eq_true, if_false]
      exact ih acc fun b hb => h b (List.mem_cons_of_mem a hb)

theorem attendanceMapGet_none {sid mid : String} {att : List AttendanceRecord}
    (h : ∀ a ∈ att, matchKey sid mid a = false) :
    attendanceMapGet att sid mid = none :=
  amg_fold_of_forall_not none h

theorem attendanceMapGet_decomp {sid mid : String} {l1 l2 : List AttendanceRecord}
    {a : AttendanceRecord}
    (ha : matchKey sid mid a = true) (h2 : ∀ b ∈ l2, matchKey sid mid b = false) :
    attendanceMapGet (l1 ++ a :: l2) sid mid = some a.present := by
  unfold attendanceMapGet
  rw [List.foldl_append, List.foldl_cons]
  simp only [ha, if_true]
  exact amg_fold_of_forall_not (some a.present) h2

theorem presentCell_eq_spec {att : List AttendanceRecord} {sid mid : String}
    (h : countKey att sid mid ≤ 1) :
    presentCell (attendanceMapGet att sid mid) = specPresentCell att sid mid := by
  by_cases hex : ∃ a ∈ att, matchKey sid mid a = true
  · obtain ⟨l1, a, l2, rfl, hnot, ha⟩ := exists_first_match hex
    have hc : countKey (l1 ++ a :: l2) sid mid =
        List.countP (matchKey sid mid) l1 + (List.countP (matchKey sid mid) l2 + 1) := by
      simp [countKey, List.countP_append, List.countP_cons, ha]
    have h2 : ∀ b ∈ l2, matchKey sid mid b = false := by
      have hz : List.countP (matchKey sid mid) l2 = 0 := by omega
      intro b hb
      simpa using List.countP_eq_zero.mp hz b hb
    rw [attendanceMapGet_decomp ha h2]
    have hany : (l1 ++ a :: l2).any (fun b => matchKey sid mid b && b.present) = a.present := by
      have h1 : l1.any (fun b => matchKey sid mid b && b.present) = false := by
        simp only [List.any_eq_false]
        intro b hb
        simp [hnot b hb]
      have h2' : l2.any (fun b => matchKey sid mid b && b.present) = false := by
        simp only [List.any_eq_false]
        intro b hb
        simp [h2 b hb]
      simp [List.any_append, List.any_cons, h1, h2', ha]
    cases hp : a.present with
    | true => simp [presentCell, specPresentCell, hany, hp]
    | false => simp [presentCell, specPresentCell, hany, hp]
  · have hall : ∀ a ∈ att, matchKey sid mid a = false := by
      intro a ha
      exact Bool.eq_false_iff.mpr (fun hc => hex ⟨a, ha, hc⟩)
    rw [attendanceMapGet_none hall]
    have hany : att.any (fun b => matchKey sid mid b && b.present) = false := by
      simp only [List.any_eq_false]
      intro b hb
      simp [hall b hb]
    simp [presentCell, specPresentCell, hany]

/-! ## Claim theorems -/

/-- C1: `setAttendance(sessionId, memberId, present)` is an upsert — when the
attendance list holds a record with key `(sessionId, memberId)` the (first)
such record gets its `present` flag overwritten in place and nothing is
appended (the length is unchanged); when no record has the key, the new
record `{sessionId, memberId, present}` is appended at the end. -/
theorem setAttendance_upsert_correct (s : StoreShape) (sid mid : String) (p : Bool) :
    ((∃ a ∈ s.attendance, a.sessionId = sid ∧ a.memberId = mid) →
      ∃ l1 a l2, s.attendance = l1 ++ a :: l2 ∧
        (∀ b ∈ l1, ¬(b.sessionId = sid ∧ b.memberId = mid)) ∧
        a.sessionId = sid ∧ a.memberId = mid ∧
        (setAttendance s sid mid p).attendance = l1 ++ { a with present := p } :: l2 ∧
        (setAttendance s sid mid p).attendance.length = s.attendance.length) ∧
    ((∀ a ∈ s.attendance, ¬(a.sessionId = sid ∧ a.memberId = mid)) →
      (setAttendance s sid mid p).attendance =
        s.attendance ++ [{ sessionId := sid, memberId := mid, present := p }]) := by
  constructor
  · intro h
    have h' : ∃ a ∈ s.attendance, matchKey sid mid a = true := by
      obtain ⟨a, ha, hk⟩ := h
      exact ⟨a, ha, matchKey_eq_true.mpr hk⟩
    obtain ⟨l1, a, l2, heq, hnot, ha⟩ := exists_first_match h'
    refine ⟨l1, a, l2, heq, ?_, (matchKey_eq_true.mp ha).1, (matchKey_eq_true.mp ha).2, ?_, ?_⟩
    · intro b hb hk
      have := hnot b hb
      rw [matchKey_eq_true.mpr hk] at this
      exact Bool.true_eq_false.mp this
    · show upsertAttendance sid mid p s.attendance = _
      rw [heq, upsert_decomp hnot ha]
    · show (upsertAttendance sid mid p s.attendance).length = _
      rw [heq, upsert_decomp hnot ha]
      simp
  · intro h
    show upsertAttendance sid mid p s.attendance = _
    refine upsert_of_forall_not fun a ha => ?_
    exact Bool.eq_false_iff.mpr fun hk => h a ha (matchKey_eq_true.mp hk)

/-- Witness for C1 at a concrete store: no record has key `("s2", "m1")`, so
the record is appended at the end. -/
theorem setAttendance_upsert_correct_witness :
    (setAttendance demoStore "s2" "m1" true).attendance =
      demoStore.attendance ++ [{ sessionId := "s2", memberId := "m1", present := true }] :=
  (setAttendance_upsert_correct demoStore "s2" "m1" true).2 (by decide)

/-- C2: `removeMember(id)` leaves no member with that id and no attendance
record with that `memberId`, and keeps `sessions` unchanged; `removeSession(id)`
leaves no session with that id and no attendance record with that `sessionId`,
and keeps `members` unchanged. -/
theorem remove_cascade (s : StoreShape) (id : String) :
    (∀ m ∈ (removeMember s id).members, m.id ≠ id) ∧
    (∀ a ∈ (removeMember s id).attendance, a.memberId ≠ id) ∧
    (removeMember s id).sessions = s.sessions ∧
    (∀ sess ∈ (removeSession s id).sessions, sess.id ≠ id) ∧
    (∀ a ∈ (removeSession s id).attendance, a.sessionId ≠ id) ∧
    (removeSession s id).members = s.members := by
  refine ⟨?_, ?_, rfl, ?_, ?_, rfl⟩ <;>
    · intro x hx
      have hpx := (List.mem_filter.mp hx).2
      simpa using hpx

/-- Witness for C2: in the concrete store, the member surviving
`removeMember "m1"` is not `"m1"`. -/
theorem remove_cascade_witness : bobMember.id ≠ "m1" :=
  (remove_cascade demoStore "m1").1 bobMember (by decide)

/-- C5: on a store whose attendance has at most one record per key, for a
valid `(sessionId, memberId)` pair, applying `setAttendance` twice with the
same arguments leaves exactly one record with that key, and the second
application returns the same store as the first. -/
theorem setAttendance_idem (s : StoreShape) (sid mid : String) (p : Bool)
    (huniq : ∀ sid' mid', countKey s.attendance sid' mid' ≤ 1)
    (_hm : mid ∈ s.members.map Member.id) (_hs : sid ∈ s.sessions.map Session.id) :
    countKey (setAttendance (setAttendance s sid mid p) sid mid p).attendance sid mid = 1 ∧
    setAttendance (setAttendance s sid mid p) sid mid p = setAttendance s sid mid p := by
  have hidem : setAttendance (setAttendance s sid mid p) sid mid p =
      setAttendance s sid mid p := by
    simp only [setAttendance, upsert_idem]
  refine ⟨?_, hidem⟩
  rw [hidem]
  show countKey (upsertAttendance sid mid p s.attendance) sid mid = 1
  by_cases hex : ∃ a ∈ s.attendance, matchKey sid mid a = true
  · rw [countKey_upsert_of_match hex]
    have hpos : 0 < countKey s.attendance sid mid := by
      rw [countKey, List.countP_pos_iff]
      exact hex
    have := huniq sid mid
    omega
  · exact countKey_upsert_of_not fun a ha =>
      Bool.eq_false_iff.mpr fun hk => hex ⟨a, ha, hk⟩

/-- Witness for C5 at the concrete store, pair `("s1", "m1")`. -/
theorem setAttendance_idem_witness :
    countKey (setAttendance (setAttendance demoStore "s1" "m1" true) "s1" "m1" true).attendance
        "s1" "m1" = 1 ∧
    setAttendance (setAttendance demoStore "s1" "m1" true) "s1" "m1" true =
      setAttendance demoStore "s1" "m1" true :=
  setAttendance_idem demoStore "s1" "m1" true
    (fun _ _ => le_trans (List.countP_le_length _) (by decide)) (by decide) (by decide)

/-- C10: `setAttendance` never touches `members` or `sessions`; and when a
record with the key already exists, the attendance list keeps its length and
order, every other record is unchanged, and the matched record differs at
most in its `present` field. -/
theorem setAttendance_frame (s : StoreShape) (sid mid : String) (p : Bool) :
    (setAttendance s sid mid p).members = s.members ∧
    (setAttendance s sid mid p).sessions = s.sessions ∧
    ((∃ a ∈ s.attendance, a.sessionId = sid ∧ a.memberId = mid) →
      ∃ l1 a l2, s.attendance = l1 ++ a :: l2 ∧
        (setAttendance s sid mid p).attendance = l1 ++ { a with present := p } :: l2 ∧
        (setAttendance s sid mid p).attendance.length = s.attendance.length) := by
  refine ⟨rfl, rfl, fun h => ?_⟩
  have h' : ∃ a ∈ s.attendance, matchKey sid mid a = true := by
    obtain ⟨a, ha, hk⟩ := h
    exact ⟨a, ha, matchKey_eq_true.mpr hk⟩
  obtain ⟨l1, a, l2, heq, hnot, ha⟩ := exists_first_match h'
  refine ⟨l1, a, l2, heq, ?_, ?_⟩
  · show upsertAttendance sid mid p s.attendance = _
    rw [heq, upsert_decomp hnot ha]
  · show (upsertAttendance sid mid p s.attendance).length = _
    rw [heq, upsert_decomp hnot ha]
    simp

/-- Witness for C10 at the concrete store: the existing `("s1", "m1")` record
is rewritten in place. -/
theorem setAttendance_frame_witness :
    ∃ l1 a l2, demoStore.attendance = l1 ++ a :: l2 ∧
      (setAttendance demoStore "s1" "m1" false).attendance =
        l1 ++ { a with present := false } :: l2 ∧
      (setAttendance demoStore "s1" "m1" false).attendance.length =
        demoStore.attendance.length :=
  (setAttendance_frame demoStore "s1" "m1" false).2.2
    ⟨{ sessionId := "s1", memberId := "m1", present := true }, by decide, rfl, rfl⟩

/-- C6 fails as stated: a `Partial<Member>` patch may itself carry an `id`
field, and the spread `{ ...m, ...patch }` then rewrites the member's id.
Concretely, patching member `"m1"` with `{id: "m9"}` changes the id list. -/
theorem update_preserves_ids_counterexample :
    (updateMember demoStore "m1" idOverwritePatch).members.map Member.id ≠
      demoStore.members.map Member.id := by decide

/-- C6 (amended): for every patch that does not carry an `id` field,
`updateMember` leaves the list of member ids unchanged and `updateSession`
leaves the list of session ids unchanged. -/
theorem update_preserves_ids (s : StoreShape) (id : String)
    (pm : MemberPatch) (ps : SessionPatch)
    (hpm : pm.id = none) (hps : ps.id = none) :
    (updateMember s id pm).members.map Member.id = s.members.map Member.id ∧
    (updateSession s id ps).sessions.map Session.id = s.sessions.map Session.id := by
  constructor
  · show (s.members.map fun m => if m.id == id then applyMemberPatch m pm else m).map
      Member.id = _
    rw [List.map_map]
    refine List.map_congr_left fun m _ => ?_
    by_cases h : (m.id == id) = true
    · show (if m.id == id then applyMemberPatch m pm else m).id = m.id
      rw [if_pos h]
      simp [applyMemberPatch, hpm]
    · show (if m.id == id then applyMemberPatch m pm else m).id = m.id
      rw [if_neg h]
  · show (s.sessions.map fun sess => if sess.id == id then applySessionPatch sess ps
      else sess).map Session.id = _
    rw [List.map_map]
    refine List.map_congr_left fun sess _ => ?_
    by_cases h : (sess.id == id) = true
    · show (if sess.id == id then applySessionPatch sess ps else sess).id = sess.id
      rw [if_pos h]
      simp [applySessionPatch, hps]
    · show (if sess.id == id then applySessionPatch sess ps else sess).id = sess.id
      rw [if_neg h]

/-- Witness for the amended C6 at the concrete store with id-free patches. -/
theorem update_preserves_ids_witness :
    (updateMember demoStore "m1" renameMemberPatch).members.map Member.id =
      demoStore.members.map Member.id ∧
    (updateSession demoStore "s1" retitleSessionPatch).sessions.map Session.id =
      demoStore.sessions.map Session.id :=
  update_preserves_ids demoStore "m1" renameMemberPatch retitleSessionPatch rfl rfl

/-- C9: when no member carries the given id, `updateMember` returns the store
unchanged, and independently, when no session carries the given id,
`updateSession` returns the store unchanged — silent no-ops, no error. -/
theorem update_unknown_id_noop (s : StoreShape) (id : String)
    (pm : MemberPatch) (ps : SessionPatch) :
    ((∀ m ∈ s.members, m.id ≠ id) → updateMember s id pm = s) ∧
    ((∀ sess ∈ s.sessions, sess.id ≠ id) → updateSession s id ps = s) := by
  obtain ⟨mems, sess, att⟩ := s
  constructor
  · intro hm
    show StoreShape.mk (mems.map _) _ _ = _
    congr 1
    rw [show mems = mems.map (fun m => m) from (List.map_id mems).symm]
    conv_lhs => rw [List.map_map]
    refine List.map_congr_left fun m hmem => ?_
    have hne : ¬(m.id == id) = true := by
      simpa using hm m (by simpa using hmem)
    show (if m.id == id then applyMemberPatch m pm else m) = m
    rw [if_neg hne]
  · intro hs
    show StoreShape.mk _ (sess.map _) _ = _
    congr 1
    rw [show sess = sess.map (fun x => x) from (List.map_id sess).symm]
    conv_lhs => rw [List.map_map]
    refine List.map_congr_left fun x hmem => ?_
    have hne : ¬(x.id == id) = true := by
      simpa using hs x (by simpa using hmem)
    show (if x.id == id then applySessionPatch x ps else x) = x
    rw [if_neg hne]

/-- Witness for C9: `"s1"` is a session id but belongs to no member, so
`updateMember` with it is a no-op; `"m1"` is a member id but belongs to no
session, so `updateSession` with it is a no-op. -/
theorem update_unknown_id_noop_witness :
    updateMember demoStore "s1" renameMemberPatch = demoStore ∧
    updateSession demoStore "m1" retitleSessionPatch = demoStore :=
  ⟨(update_unknown_id_noop demoStore "s1" renameMemberPatch retitleSessionPatch).1 (by decide),
   (update_unknown_id_noop demoStore "m1" renameMemberPatch retitleSessionPatch).2 (by decide)⟩

theorem truthy_of_members_isArray {data : Json}
    (h : isArrayOpt (data.getField "members") = true) : data.truthy = true := by
  cases data <;> simp [Json.getField, isArrayOpt, Json.truthy] at h ⊢

/-- C3: the JSON import is gated by the shape check — a candidate lacking any
of the three array fields `members`, `sessions`, `attendance` leaves the
snapshot unchanged and raises the invalid-format signal; a candidate with
all three array fields wholesale-replaces the snapshot with no signal. -/
theorem importJson_shape_check (current data : Json) :
    (¬(isArrayOpt (data.getField "members") = true ∧
        isArrayOpt (data.getField "sessions") = true ∧
        isArrayOpt (data.getField "attendance") = true) →
      onImportParsed current data = (current, true)) ∧
    ((isArrayOpt (data.getField "members") = true ∧
        isArrayOpt (data.getField "sessions") = true ∧
        isArrayOpt (data.getField "attendance") = true) →
      onImportParsed current data = (data, false)) := by
  constructor
  · intro h
    have hfalse : isStoreShape data = false := by
      rcases hb : isStoreShape data with _ | _
      · rfl
      · exfalso
        apply h
        have := hb
        unfold isStoreShape at this
        simp only [Bool.and_eq_true] at this
        exact ⟨this.1.1.2, this.1.2, this.2⟩
    unfold onImportParsed
    rw [hfalse]
    rfl
  · intro h
    have htrue : isStoreShape data = true := by
      unfold isStoreShape
      simp only [Bool.and_eq_true]
      exact ⟨⟨⟨truthy_of_members_isArray h.1, h.1⟩, h.2.1⟩, h.2.2⟩
    unfold onImportParsed
    rw [htrue]
    rfl

/-- Witness for C3: a shapeless candidate (`{}`) is rejected with the current
snapshot intact, a candidate with the three array fields replaces it. -/
theorem importJson_shape_check_witness :
    onImportParsed (Json.num 7) (Json.obj []) = (Json.num 7, true) ∧
    onImportParsed (Json.num 7) goodBackup = (goodBackup, false) :=
  ⟨(importJson_shape_check (Json.num 7) (Json.obj [])).1 (by decide),
   (importJson_shape_check (Json.num 7) goodBackup).2 (by decide)⟩

/-- C4: the CSV field encoder is the identity exactly on fields free of
commas, double-quotes and newlines; any other field is emitted with every
double-quote doubled and the whole field wrapped in double-quotes; in
particular `Jane, "The Lead"` encodes to `"Jane, ""The Lead"""`. -/
theorem csv_field_quoting :
    (∀ f : List Char,
      (encodeCsvField f = f ↔ ¬(',' ∈ f ∨ '"' ∈ f ∨ '\n' ∈ f)) ∧
      ((',' ∈ f ∨ '"' ∈ f ∨ '\n' ∈ f) →
        encodeCsvField f = '"' :: (escapeQuotes f ++ ['"']))) ∧
    encodeCsvField ("Jane, \"The Lead\"").data = ("\"Jane, \"\"The Lead\"\"\"").data := by
  have hneed : ∀ f : List Char,
      fieldNeedsQuoting f = true ↔ (',' ∈ f ∨ '"' ∈ f ∨ '\n' ∈ f) := by
    intro f
    unfold fieldNeedsQuoting
    rw [List.any_eq_true]
    constructor
    · rintro ⟨c, hc, hq⟩
      simp only [Bool.or_eq_true, beq_iff_eq] at hq
      rcases hq with (hq | hq) | hq <;> subst hq
      · exact Or.inr (Or.inl hc)
      · exact Or.inl hc
      · exact Or.inr (Or.inr hc)
    · rintro (h | h | h)
      · exact ⟨',', h, by simp⟩
      · exact ⟨'"', h, by simp⟩
      · exact ⟨'\n', h, by simp⟩
  refine ⟨fun f => ⟨⟨fun heq hmem => ?_, fun hmem => ?_⟩, fun hmem => ?_⟩, by decide⟩
  · have hq : fieldNeedsQuoting f = true := (hneed f).mpr hmem
    rw [encodeCsvField, if_pos hq] at heq
    have hlen := congrArg List.length heq
    simp only [List.length_cons, List.length_append, List.length_singleton] at hlen
    have := escapeQuotes_length f
    omega
  · have hq : fieldNeedsQuoting f = false := by
      rcases hb : fieldNeedsQuoting f with _ | _
      · rfl
      · exact absurd ((hneed f).mp hb) hmem
    rw [encodeCsvField, if_neg (by simp [hq])]
  · have hq : fieldNeedsQuoting f = true := (hneed f).mpr hmem
    rw [encodeCsvField, if_pos hq]

/-- Witness for C4: a plain field is left unchanged. -/
theorem csv_field_quoting_witness :
    encodeCsvField ("Ann").data = ("Ann").data :=
  ((csv_field_quoting.1 ("Ann").data).1).mpr (by decide)

/-- C7 fails as stated: on a store with two attendance records for the same
key — first `present: true`, then `present: false` — the `Map` built by
`attendanceMap` keeps the later record, so the member's Present column reads
`"No"`, while the claim's exists-a-true-record reading demands `"Yes"`. -/
theorem csv_export_rows_counterexample :
    week1Session ∈ dupStore.sessions ∧
    csvRowsForSession dupStore week1Session ≠
      headerRow :: dupStore.members.map (specCsvRow dupStore.attendance week1Session) := by
  decide

/-- C7 (amended): on a store whose attendance has at most one record per
`(sessionId, memberId)` key, the CSV rows for a session of the store are one
header row followed by exactly one row per member in member-list order, each
row being name, email (empty when absent), phone (empty when absent),
`"Yes"` exactly when a record for (session, member) exists with `present`
true and `"No"` otherwise, the session title and the session date. -/
theorem csv_export_rows (s : StoreShape) (sel : Session)
    (_hsel : sel ∈ s.sessions)
    (huniq : ∀ sid mid, countKey s.attendance sid mid ≤ 1) :
    csvRowsForSession s sel = headerRow :: s.members.map (specCsvRow s.attendance sel) := by
  rw [csvRowsForSession, foldl_push (csvRow s.attendance sel) s.members [headerRow],
    List.singleton_append]
  refine congrArg (headerRow :: ·) (List.map_congr_left fun m _ => ?_)
  unfold csvRow specCsvRow
  rw [presentCell_eq_spec (huniq sel.id m.id)]

/-- Witness for the amended C7 at the concrete store. -/
theorem csv_export_rows_witness :
    csvRowsForSession demoStore week1Session =
      headerRow :: demoStore.members.map (specCsvRow demoStore.attendance week1Session) :=
  csv_export_rows demoStore week1Session (by decide)
    (fun _ _ => le_trans (List.countP_le_length _) (by decide))

/-- C8: the load path never throws (it is a total function of the slot's
content), and an absent slot or text that fails to parse yields the empty
store `{members: [], sessions: [], attendance: []}`. -/
theorem load_defaults (raw : Option String) (parse : String → Option StoreShape)
    (h : raw = none ∨ ∀ t, raw = some t → parse t = none) :
    loadStoredState raw parse =
      { members := [], sessions := [], attendance := [] } := by
  cases raw with
  | none => rfl
  | some t =>
      have hp : parse t = none := by
        rcases h with h | h
        · exact absurd h (by simp)
        · exact h t rfl
      show (if (t == "") = true then DEFAULT_STORE else
        match parse t with
        | none => DEFAULT_STORE
        | some st => st) = _
      by_cases ht : (t == "") = true
      · rw [if_pos ht]
        rfl
      · rw [if_neg ht, hp]
        rfl

/-- Witness for C8: an absent slot loads the empty store. -/
theorem load_defaults_witness :
    loadStoredState none (fun _ => none) =
      { members := [], sessions := [], attendance := [] } :=
  load_defaults none (fun _ => none) (Or.inl rfl)
